import Mathlib

/-!
Verification of the otelex BigQuery trace exporter core: row construction
(`rows_builder.go`), schema synchronization and the insert-retry engine
(`sendRows`/`updateSchema` in the exporter source).  The Go code is shallowly
embedded: pcommon attribute values become the inductive `Value`, the
`map[string]interface{}` rows become association lists, remote calls
(`Inserter.Put`, `Table.Metadata`, `Table.Update`) are driven by explicit
outcome parameters, and the performed remote operations are collected in an
`Op` trace.
-/

namespace Otelex

/-- `pcommon.Value`: the dynamically typed OTel attribute value.  Its tag set
(`pcommon.ValueType`) is Empty, Str, Int, Double, Bool, Map, Slice, Bytes.
Payloads are carried opaquely: float64 payloads are represented as rationals
(no arithmetic is ever performed on them), byte slices as lists of byte
values. -/
inductive Value where
  | empty
  | bool (b : Bool)
  | bytes (bs : List Nat)
  | double (d : Rat)
  | int (n : Int)
  | map (m : List (String × Value))
  | slice (xs : List Value)
  | str (s : String)

/-- The Go dynamic type of a value stored in a row (`interface{}` in
`bigqueryrow`).  `addKeyValue` stores `v.Bool() : bool`, `v.Bytes() :
pcommon.ByteSlice`, `v.Double() : float64`, `v.Int() : int64`, `v.Map() :
pcommon.Map`, `v.Slice() : pcommon.Slice` or `v.Str() : string`; the `"name"`
entry is a Go `string`.  Note that no row value ever has Go type `byte`
(= `uint8`). -/
inductive RowValue where
  | bool (b : Bool)
  | bytes (bs : List Nat)
  | double (d : Rat)
  | int (n : Int)
  | map (m : List (String × Value))
  | slice (xs : List Value)
  | str (s : String)

/-- `bigqueryrow = map[string]interface{}`, embedded as an association list
(the Go map's iteration order is unspecified; the embedding fixes insertion
order). -/
abbrev Row := List (String × RowValue)

/-- Character substitution of `strings.Replace(k, ".", "_", -1)`. -/
def replDot (c : Char) : Char :=
  if c = '.' then '_' else c

/-- `strings.Replace(k, ".", "_", -1)`: the pattern is the single character
`'.'`, so the call is the character-wise map replacing `'.'` by `'_'`. -/
def sanitizeFieldName (k : String) : String :=
  ⟨k.data.map replDot⟩

/-- Go map assignment `row[k] = v`: replace the binding in place if the key
is present, otherwise append it. -/
def setField (row : Row) (k : String) (v : RowValue) : Row :=
  match row with
  | [] => [(k, v)]
  | (k', v') :: rest => if k = k' then (k, v) :: rest else (k', v') :: setField rest k v

/-- `bigqueryrow.addKeyValue` (rows_builder.go:51).  The switch on `v.Type()`
enumerates the seven non-empty tags and has no default: a
`pcommon.ValueTypeEmpty` value matches no case, so nothing is written and the
row is returned unchanged. -/
def addKeyValue (row : Row) (k : String) (v : Value) : Row :=
  let k := sanitizeFieldName k
  match v with
  | .bool b => setField row k (.bool b)
  | .bytes bs => setField row k (.bytes bs)
  | .double d => setField row k (.double d)
  | .int n => setField row k (.int n)
  | .map m => setField row k (.map m)
  | .slice xs => setField row k (.slice xs)
  | .str s => setField row k (.str s)
  | .empty => row

/-- A leaf span: display name plus span-level attributes. -/
structure Span where
  name : String
  attributes : List (String × Value)

/-- One `ScopeSpans` group (the scope metadata is not read by `buildRows`). -/
structure ScopeSpans where
  spans : List Span

/-- One `ResourceSpans` group: resource-level attributes plus scope groups. -/
structure ResourceSpans where
  resource : List (String × Value)
  scopeSpans : List ScopeSpans

/-- `ptrace.Traces`, reduced to the structure `buildRows` traverses. -/
abbrev Traces := List ResourceSpans

/-- Body of the innermost loop of `buildRows`: start the row with the span
name, then write every resource attribute, then every span attribute. -/
def buildRow (res : List (String × Value)) (span : Span) : Row :=
  let row : Row := [("name", RowValue.str span.name)]
  let row := res.foldl (fun r kv => addKeyValue r kv.1 kv.2) row
  span.attributes.foldl (fun r kv => addKeyValue r kv.1 kv.2) row

/-- `buildRows` (rows_builder.go:17): the triple nested loop appending one
row per span. -/
def buildRows (td : Traces) : List Row :=
  td.foldl
    (fun rows rspan =>
      rspan.scopeSpans.foldl
        (fun rows sspan =>
          sspan.spans.foldl
            (fun rows span => rows ++ [buildRow rspan.resource span]) rows)
        rows)
    []

/-- The leaf records of a batch in traversal order, each paired with its
resource group's attributes (specification device for stating claims about
`buildRows`). -/
def tdLeaves (td : Traces) : List (List (String × Value) × Span) :=
  td.flatMap fun rs => rs.scopeSpans.flatMap fun ss => ss.spans.map fun sp => (rs.resource, sp)

/-- `bigquery.FieldType` restricted to the constants named by the exporter,
plus `empty` (the Go zero value `FieldType("")`) and `other` for any further
BigQuery type. -/
inductive FieldType where
  | timestamp
  | boolean
  | bignumeric
  | numeric
  | string
  | bytes
  | empty
  | other (s : String)
  deriving DecidableEq

/-- The string value of the BigQuery `FieldType` constant. -/
def fieldTypeName : FieldType → String
  | .timestamp => "TIMESTAMP"
  | .boolean => "BOOLEAN"
  | .bignumeric => "BIGNUMERIC"
  | .numeric => "NUMERIC"
  | .string => "STRING"
  | .bytes => "BYTES"
  | .empty => ""
  | .other s => s

/-- `bigquery.FieldSchema`, reduced to the two components the exporter sets
(`Name` and `Type`; `Required` is left at its zero value, i.e. nullable). -/
structure Field where
  name : String
  ftype : FieldType
  deriving DecidableEq

/-- The part of `bigquery.TableMetadata` the exporter reads: the schema and
its ETag (optimistic-concurrency token). -/
structure TableMeta where
  schema : List Field
  etag : String

/-- A `table.Update(ctx, metaUpdate, etag)` call: the full schema submitted
and the guarding ETag. -/
structure AlterRequest where
  schema : List Field
  etag : String

/-- Remote operations performed by the exporter, in order. -/
inductive Op where
  | put (rows : List Row)
  | fetchMeta
  | alter (req : AlterRequest)
  | sleep (seconds : Nat)

/-- Is this operation a schema-alteration request? -/
def isAlterOp : Op → Bool
  | .alter _ => true
  | _ => false

/-- `reflect.TypeOf(value).String()` for each Go dynamic type a row value can
have. -/
def valueTypeString : RowValue → String
  | .bool _ => "bool"
  | .bytes _ => "pcommon.ByteSlice"
  | .double _ => "float64"
  | .int _ => "int64"
  | .map _ => "pcommon.Map"
  | .slice _ => "pcommon.Slice"
  | .str _ => "string"

/-- The `switch field.Type` in `updateSchema`'s first loop: the Go type name
recorded in `knownFieldsTypes`, or `none` for a `FieldType` outside the six
handled cases (the `default` branch, which aborts the synchronization). -/
def goTypeOfFieldType : FieldType → Option String
  | .bignumeric => some "float64"
  | .boolean => some "bool"
  | .bytes => some "byte"
  | .numeric => some "int64"
  | .string => some "string"
  | .timestamp => some "int64"
  | _ => none

/-- First loop of `updateSchema`: build `knownFields`/`knownFieldsTypes` from
the fetched schema, returning the error of the `default` branch at the first
field whose type is outside the handled set. -/
def buildKnown : List Field → Except String (List (String × String))
  | [] => .ok []
  | f :: fs =>
    match goTypeOfFieldType f.ftype with
    | some t =>
      match buildKnown fs with
      | .ok r => .ok ((f.name, t) :: r)
      | .error e => .error e
    | none => .error ("BigQuery field type " ++ fieldTypeName f.ftype ++ " incompatible with span attribute value types")

/-- Schema type staged for a new field (`updateSchema`, the `if key == "ts"`
branch and the `switch value.(type)`).  Go's `case byte:` matches the dynamic
type `uint8` only; no row value ever has that type (bytes attributes are
stored as `pcommon.ByteSlice`), so the `.bytes`, `.map` and `.slice`
constructors reach the `default` branch, which leaves `fieldType` at its zero
value `FieldType("")`. -/
def inferFieldType (key : String) (v : RowValue) : FieldType :=
  if key = "ts" then .timestamp
  else
    match v with
    | .bool _ => .boolean
    | .double _ => .bignumeric
    | .int _ => .numeric
    | .str _ => .string
    | _ => .empty

/-- Mutable state of `updateSchema`'s row/field loop: the `knownFields` /
`knownFieldsTypes` maps (merged into one association list), the growing
`metaUpdate.Schema`, the `newFields` set (kept as the list of staged names,
each staged at most once), and the emitted type-mismatch warnings (the
`fmt.Printf` on an existing field whose recorded type differs). -/
structure SyncState where
  known : List (String × String)
  schema : List Field
  newFields : List String
  warnings : List String

/-- One iteration of the inner field loop of `updateSchema` (Go's local
`valueType := reflect.TypeOf(value).String()` is inlined as
`valueTypeString kv.2`). -/
def processField (s : SyncState) (kv : String × RowValue) : SyncState :=
  match s.known.lookup kv.1 with
  | some t =>
    if t ≠ valueTypeString kv.2 then { s with warnings := s.warnings ++ [kv.1] } else s
  | none =>
    { known := s.known ++ [(kv.1, valueTypeString kv.2)]
      schema := s.schema ++ [⟨kv.1, inferFieldType kv.1 kv.2⟩]
      newFields := s.newFields ++ [kv.1]
      warnings := s.warnings }

/-- The field loop over one row. -/
def processRow (s : SyncState) (row : Row) : SyncState :=
  row.foldl processField s

/-- The row loop over the batch. -/
def processRows (s : SyncState) (rows : List Row) : SyncState :=
  rows.foldl processRow s

/-- Result of a synchronization attempt: the remote operations performed, the
warnings printed, and the returned error. -/
structure SyncOut where
  ops : List Op
  warnings : List String
  result : Except String Unit

/-- `updateSchema` (exporter source, `part_003` lines 151-247).  `metaResult`
is the outcome of the `table.Metadata(ctx)` call and `updateResult` the
outcome of the `table.Update(ctx, metaUpdate, meta.ETag)` call, when
reached. -/
def updateSchema (metaResult : Except String TableMeta) (rows : List Row)
    (updateResult : Except String Unit) : SyncOut :=
  match metaResult with
  | .error e => ⟨[Op.fetchMeta], [], .error ("table metadata: " ++ e)⟩
  | .ok meta =>
    match buildKnown meta.schema with
    | .error e => ⟨[Op.fetchMeta], [], .error e⟩
    | .ok kn =>
      let s := processRows ⟨kn, meta.schema, [], []⟩ rows
      if s.newFields = [] then ⟨[Op.fetchMeta], s.warnings, .ok ()⟩
      else
        match updateResult with
        | .ok _ => ⟨[Op.fetchMeta, Op.alter ⟨s.schema, meta.etag⟩], s.warnings, .ok ()⟩
        | .error e => ⟨[Op.fetchMeta, Op.alter ⟨s.schema, meta.etag⟩], s.warnings, .error ("unable to update schema: " ++ e)⟩

/-- Is `pat` a prefix of `l`? (component of `strings.Contains`). -/
def startsWith : List Char → List Char → Bool
  | [], _ => true
  | _ :: _, [] => false
  | p :: ps, c :: cs => p = c && startsWith ps cs

/-- Does `pat` occur as a contiguous substring of `l`?
(`strings.Contains`). -/
def containsSub (pat : List Char) : List Char → Bool
  | [] => startsWith pat []
  | c :: cs => startsWith pat (c :: cs) || containsSub pat cs

/-- `strings.Contains(err.Error(), "no such field")`: the unknown-field
classification of an insert error. -/
def noSuchFieldIn (msg : String) : Bool :=
  containsSub "no such field".data msg.data

/-- `sendRows` (exporter source, `part_003` lines 118-147).  `put1` and
`put2` are the outcomes of the first and (when reached) second
`table.Inserter().Put(ctx, rows)` call (`none` = success, `some msg` =
error with message `msg`); `metaResult` and `updateResult` feed
`updateSchema` when it is invoked.  Returns the trace of remote operations
and the error returned to the caller. -/
def sendRows (flexible : Bool) (rows : List Row) (put1 : Option String)
    (metaResult : Except String TableMeta) (updateResult : Except String Unit)
    (put2 : Option String) : List Op × Option String :=
  match put1 with
  | none => ([Op.put rows], none)
  | some msg =>
    if noSuchFieldIn msg then
      if flexible then
        let u := updateSchema metaResult rows updateResult
        match u.result with
        | .error e => (Op.put rows :: u.ops, some e)
        | .ok _ => (Op.put rows :: u.ops ++ [Op.sleep 60, Op.put rows], put2)
      else ([Op.put rows], some msg)
    else ([Op.put rows], some msg)

/-- The row value a single `addKeyValue` call writes for an attribute value,
`none` when the value's tag matches no case of the switch (specification
device). -/
def toRowValue? : Value → Option RowValue
  | .bool b => some (.bool b)
  | .bytes bs => some (.bytes bs)
  | .double d => some (.double d)
  | .int n => some (.int n)
  | .map m => some (.map m)
  | .slice xs => some (.slice xs)
  | .str s => some (.str s)
  | .empty => none

/-- `orO a b` is `a` unless `a` is `none` (specification device). -/
def orO (a b : Option RowValue) : Option RowValue :=
  match a with
  | some w => some w
  | none => b

/-- The value left at sanitized field name `k` after writing an attribute
list into a row: the last attribute whose sanitized key is `k` and whose
value actually writes (specification device). -/
def lastWrite (k : String) : List (String × Value) → Option RowValue
  | [] => none
  | kv :: rest =>
    match lastWrite k rest with
    | some w => some w
    | none => if sanitizeFieldName kv.1 = k then toRowValue? kv.2 else none

/-- Default leaf used with `List.getD` (specification device). -/
def dfltLeaf : List (String × Value) × Span :=
  ([], ⟨"", []⟩)

/-- No attribute of the leaf's resource group or of the leaf itself sanitizes
to the reserved record-name field `"name"` (specification device). -/
def leafNoNameCollision (leaf : List (String × Value) × Span) : Prop :=
  ∀ kv : String × Value, (kv ∈ leaf.1 ∨ kv ∈ leaf.2.attributes) → sanitizeFieldName kv.1 ≠ "name"

/-- Concrete batch: one resource group, one scope group, one span named
`"span1"` carrying an attribute keyed `"name"`. -/
def tdNameClash : Traces :=
  [⟨[], [⟨[⟨"span1", [("name", Value.str "x")]⟩]⟩]⟩]

/-- Concrete batch: one resource group with a `service.name` attribute and
one span named `"span1"`. -/
def tdOneSpan : Traces :=
  [⟨[("service.name", Value.str "svc1")], [⟨[⟨"span1", [("str_key", Value.str "value1")]⟩]⟩]⟩]

/-- Field names currently recorded as known (specification device). -/
def knownNames (s : SyncState) : List String :=
  s.known.map Prod.fst

/-- Invariant of `updateSchema`'s row/field loop, relative to the fetched
metadata `meta`, the known-fields map `kn` built from it, and a predicate
`src` that holds of every key/value pair fed to the loop: the staged part of
the growing schema is an append-only suffix of new fields, each staged at
most once, absent from the fetched schema, and typed by the inference on
some source pair with its name (specification device). -/
def SyncInv (meta : TableMeta) (kn : List (String × String))
    (src : String × RowValue → Prop) (s : SyncState) : Prop :=
  ∃ staged : List Field, ∃ kpairs : List (String × String),
    s.schema = meta.schema ++ staged
    ∧ s.newFields = staged.map Field.name
    ∧ s.known = kn ++ kpairs
    ∧ kpairs.map Prod.fst = staged.map Field.name
    ∧ (staged.map Field.name).Nodup
    ∧ ∀ f ∈ staged, f.name ∉ kn.map Prod.fst
        ∧ ∃ kv : String × RowValue, src kv ∧ kv.1 = f.name ∧ f.ftype = inferFieldType kv.1 kv.2

/-- Concrete metadata: one STRING field `a`. -/
def metaOneField : TableMeta := ⟨[⟨"a", FieldType.string⟩], "etag1"⟩

/-- Concrete batch rows: known field `a` plus new field `b`. -/
def rowsNewField : List Row := [[("a", RowValue.str "x"), ("b", RowValue.int 3)]]

/-- Concrete metadata: one STRING field `name`. -/
def metaNoop : TableMeta := ⟨[⟨"name", FieldType.string⟩], "etag2"⟩

/-- Concrete batch rows whose only field `name` is already present. -/
def rowsNoop : List Row := [[("name", RowValue.str "s")]]

/-- Concrete metadata with an empty schema. -/
def metaEmptySchema : TableMeta := ⟨[], "etag0"⟩

/-- Concrete batch rows: one new bytes-valued field `b`. -/
def rowsBytesField : List Row := [[("b", RowValue.bytes [104])]]

/-- Concrete batch rows: one new string-valued field `k`. -/
def rowsOneNew : List Row := [[("k", RowValue.str "v")]]

/-- Concrete metadata: one NUMERIC field `a` (known Go type `int64`). -/
def metaMismatch : TableMeta := ⟨[⟨"a", FieldType.numeric⟩], "etag3"⟩

/-- Concrete batch rows: existing field `a` observed with a string value. -/
def rowsMismatch : List Row := [[("a", RowValue.str "x")]]

end Otelex

namespace Otelex

section HelperLemmas

theorem replDot_replDot (c : Char) : replDot (replDot c) = replDot c := by
  by_cases h : c = '.' <;> simp [replDot, h]

theorem lookup_setField_self (row : Row) (k : String) (v : RowValue) :
    List.lookup k (setField row k v) = some v := by
  induction row with
  | nil => simp [setField, List.lookup]
  | cons p rest ih =>
    obtain ⟨k', v'⟩ := p
    by_cases h : k = k'
    · simp [setField, h, List.lookup]
    · have hbe : (k == k') = false := beq_eq_false_iff_ne.mpr h
      simp [setField, h, List.lookup, hbe, ih]

theorem lookup_setField_ne (row : Row) (k k' : String) (v : RowValue) (h : k' ≠ k) :
    List.lookup k' (setField row k v) = List.lookup k' row := by
  have hbe : (k' == k) = false := beq_eq_false_iff_ne.mpr h
  induction row with
  | nil => simp [setField, List.lookup, hbe]
  | cons p rest ih =>
    obtain ⟨a, b⟩ := p
    by_cases hk : k = a
    · subst hk
      simp [setField, List.lookup, hbe]
    · simp [setField, hk, List.lookup, ih]

theorem lookup_addKeyValue (r : Row) (kk : String) (v : Value) (k : String) :
    List.lookup k (addKeyValue r kk v) =
      orO (if sanitizeFieldName kk = k then toRowValue? v else none) (List.lookup k r) := by
  by_cases h : sanitizeFieldName kk = k
  · cases v <;>
      simp [addKeyValue, toRowValue?, orO, h, lookup_setField_self, lookup_setField_ne]
  · have h' : k ≠ sanitizeFieldName kk := fun he => h he.symm
    cases v <;>
      simp [addKeyValue, toRowValue?, orO, h, lookup_setField_ne _ _ _ _ h']

theorem lookup_foldl_addKeyValue (attrs : List (String × Value)) (r0 : Row) (k : String) :
    List.lookup k (attrs.foldl (fun r kv => addKeyValue r kv.1 kv.2) r0) =
      orO (lastWrite k attrs) (List.lookup k r0) := by
  induction attrs generalizing r0 with
  | nil => simp [lastWrite, orO]
  | cons kv rest ih =>
    rw [List.foldl_cons, ih, lookup_addKeyValue]
    cases hrest : lastWrite k rest with
    | some w => simp [lastWrite, hrest, orO]
    | none => simp [lastWrite, hrest, orO]

theorem lastWrite_eq_none (k : String) (attrs : List (String × Value))
    (h : ∀ kv ∈ attrs, sanitizeFieldName kv.1 ≠ k) : lastWrite k attrs = none := by
  induction attrs with
  | nil => rfl
  | cons kv rest ih =>
    have hrest := ih fun x hx => h x (List.mem_cons_of_mem _ hx)
    simp [lastWrite, hrest, h kv (List.mem_cons_self _ _)]

theorem lookup_buildRow_name (res : List (String × Value)) (span : Span)
    (h : ∀ kv : String × Value, (kv ∈ res ∨ kv ∈ span.attributes) → sanitizeFieldName kv.1 ≠ "name") :
    List.lookup "name" (buildRow res span) = some (RowValue.str span.name) := by
  unfold buildRow
  rw [lookup_foldl_addKeyValue, lookup_foldl_addKeyValue,
    lastWrite_eq_none _ _ fun kv hkv => h kv (Or.inr hkv),
    lastWrite_eq_none _ _ fun kv hkv => h kv (Or.inl hkv)]
  simp [orO, List.lookup]

theorem foldl_accum {α β : Type} (h : α → List β) (F : List β → α → List β)
    (hF : ∀ acc x, F acc x = acc ++ h x) :
    ∀ (l : List α) (init : List β), l.foldl F init = init ++ l.flatMap h := by
  intro l
  induction l with
  | nil => intro init; simp
  | cons a as ih => intro init; simp [List.foldl_cons, hF, ih, List.append_assoc]

theorem flatMap_single {α β : Type} (g : α → β) (l : List α) :
    (l.flatMap fun x => [g x]) = l.map g := by
  induction l <;> simp_all

theorem buildRows_eq_leaves_map (td : Traces) :
    buildRows td = (tdLeaves td).map fun p => buildRow p.1 p.2 := by
  unfold buildRows tdLeaves
  rw [foldl_accum
    (fun rspan => rspan.scopeSpans.flatMap fun sspan => sspan.spans.map (buildRow rspan.resource))
    _
    (fun rows rspan => by
      rw [foldl_accum (fun sspan => sspan.spans.map (buildRow rspan.resource)) _
        (fun rows sspan => by
          rw [foldl_accum (fun span => [buildRow rspan.resource span]) _ (fun _ _ => rfl),
            flatMap_single]) ])]
  simp only [List.map_flatMap, List.map_map, List.nil_append]
  rfl

theorem getD_map {α β : Type} (f : α → β) (l : List α) (d : α) (d' : β) :
    ∀ i, i < l.length → (l.map f).getD i d' = f (l.getD i d) := by
  induction l with
  | nil => intro i hi; simp at hi
  | cons a as ih =>
    intro i hi
    cases i with
    | zero => simp
    | succ j =>
      simp only [List.map_cons, List.getD_cons_succ]
      exact ih j (by simpa using hi)

theorem lookup_none_iff {β : Type} (l : List (String × β)) (k : String) :
    List.lookup k l = none ↔ k ∉ l.map Prod.fst := by
  induction l with
  | nil => simp [List.lookup]
  | cons p t ih =>
    obtain ⟨a, b⟩ := p
    by_cases h : k = a
    · subst h
      simp [List.lookup]
    · have hbe : (k == a) = false := beq_eq_false_iff_ne.mpr h
      simp [List.lookup, hbe, ih, h]

theorem lookup_append_left {β : Type} (l1 l2 : List (String × β)) (k : String) (v : β)
    (h : List.lookup k l1 = some v) : List.lookup k (l1 ++ l2) = some v := by
  induction l1 with
  | nil => simp [List.lookup] at h
  | cons p t ih =>
    obtain ⟨a, b⟩ := p
    by_cases hk : k = a
    · subst hk
      simpa [List.lookup] using h
    · have hbe : (k == a) = false := beq_eq_false_iff_ne.mpr hk
      rw [List.cons_append]
      simp only [List.lookup, hbe] at h ⊢
      exact ih h

theorem buildKnown_fst (fs : List Field) (kn : List (String × String))
    (h : buildKnown fs = .ok kn) : kn.map Prod.fst = fs.map Field.name := by
  induction fs generalizing kn with
  | nil =>
    simp only [buildKnown] at h
    obtain rfl : kn = [] := by cases h; rfl
    simp
  | cons f fs ih =>
    simp only [buildKnown] at h
    cases hg : goTypeOfFieldType f.ftype with
    | none => rw [hg] at h; cases h
    | some t =>
      rw [hg] at h
      cases hb : buildKnown fs with
      | error e => rw [hb] at h; cases h
      | ok r =>
        rw [hb] at h
        obtain rfl : kn = (f.name, t) :: r := by cases h; rfl
        simp [ih r hb]

theorem SyncInv_init (meta : TableMeta) (kn : List (String × String))
    (src : String × RowValue → Prop) : SyncInv meta kn src ⟨kn, meta.schema, [], []⟩ :=
  ⟨[], [], by simp, rfl, by simp, rfl, List.nodup_nil, by intro f hf; cases hf⟩

theorem processField_inv (meta : TableMeta) (kn : List (String × String))
    (src : String × RowValue → Prop) (s : SyncState) (kv : String × RowValue)
    (hkv : src kv) (h : SyncInv meta kn src s) : SyncInv meta kn src (processField s kv) := by
  obtain ⟨staged, kpairs, h1, h2, h3, h4, h5, h6⟩ := h
  unfold processField
  split
  next t hl =>
    split
    · exact ⟨staged, kpairs, h1, h2, h3, h4, h5, h6⟩
    · exact ⟨staged, kpairs, h1, h2, h3, h4, h5, h6⟩
  next hl =>
    have hnotin : kv.1 ∉ List.map Prod.fst s.known := (lookup_none_iff _ _).mp hl
    rw [h3, List.map_append] at hnotin
    have hkn0 : kv.1 ∉ kn.map Prod.fst := fun hc => hnotin (List.mem_append_left _ hc)
    have hstg : kv.1 ∉ staged.map Field.name := fun hc =>
      hnotin (List.mem_append_right _ (h4 ▸ hc))
    refine ⟨staged ++ [⟨kv.1, inferFieldType kv.1 kv.2⟩],
      kpairs ++ [(kv.1, valueTypeString kv.2)], ?_, ?_, ?_, ?_, ?_, ?_⟩
    · rw [h1, List.append_assoc]
    · simp [h2]
    · rw [h3, List.append_assoc]
    · simp [h4]
    · rw [List.map_append, List.nodup_append]
      refine ⟨h5, List.nodup_singleton _, ?_⟩
      intro x hx hx'
      rw [List.map_singleton, List.mem_singleton] at hx'
      subst hx'
      exact hstg hx
    · intro f hf
      rcases List.mem_append.mp hf with hm | hm
      · exact h6 f hm
      · rw [List.mem_singleton] at hm
        subst hm
        exact ⟨hkn0, kv, hkv, rfl, rfl⟩

theorem processRow_inv (meta : TableMeta) (kn : List (String × String))
    (src : String × RowValue → Prop) (row : Row) :
    ∀ s : SyncState, (∀ kv ∈ row, src kv) → SyncInv meta kn src s →
      SyncInv meta kn src (processRow s row) := by
  induction row with
  | nil => intro s _ h; exact h
  | cons a t ih =>
    intro s hrow h
    simp only [processRow, List.foldl_cons] at *
    exact ih (processField s a) (fun kv hkv => hrow kv (List.mem_cons_of_mem _ hkv))
      (processField_inv meta kn src s a (hrow a (List.mem_cons_self _ _)) h)

theorem processRows_inv (meta : TableMeta) (kn : List (String × String))
    (src : String × RowValue → Prop) (rows : List Row) :
    ∀ s : SyncState, (∀ r ∈ rows, ∀ kv ∈ r, src kv) → SyncInv meta kn src s →
      SyncInv meta kn src (processRows s rows) := by
  induction rows with
  | nil => intro s _ h; exact h
  | cons r rs ih =>
    intro s hrows h
    simp only [processRows, List.foldl_cons] at *
    exact ih (processRow s r) (fun x hx => hrows x (List.mem_cons_of_mem _ hx))
      (processRow_inv meta kn src r s (hrows r (List.mem_cons_self _ _)) h)

theorem mem_knownNames_processField (s : SyncState) (kv : String × RowValue) (x : String)
    (h : x ∈ knownNames s) : x ∈ knownNames (processField s kv) := by
  unfold processField
  split
  next t hl =>
    split
    · exact h
    · exact h
  next hl =>
    unfold knownNames at *
    rw [List.map_append]
    exact List.mem_append_left _ h

theorem self_mem_knownNames_processField (s : SyncState) (kv : String × RowValue) :
    kv.1 ∈ knownNames (processField s kv) := by
  unfold processField
  split
  next t hl =>
    have hmem : kv.1 ∈ knownNames s := by
      by_contra hc
      rw [(lookup_none_iff s.known kv.1).mpr hc] at hl
      cases hl
    split
    · exact hmem
    · exact hmem
  next hl =>
    unfold knownNames
    rw [List.map_append]
    exact List.mem_append_right _ (by simp)

theorem mem_knownNames_processRow (row : Row) :
    ∀ (s : SyncState) (x : String), x ∈ knownNames s → x ∈ knownNames (processRow s row) := by
  induction row with
  | nil => intro s x h; exact h
  | cons a t ih =>
    intro s x h
    simp only [processRow, List.foldl_cons] at *
    exact ih (processField s a) x (mem_knownNames_processField s a x h)

theorem mem_knownNames_processRows (rows : List Row) :
    ∀ (s : SyncState) (x : String), x ∈ knownNames s → x ∈ knownNames (processRows s rows) := by
  induction rows with
  | nil => intro s x h; exact h
  | cons r rs ih =>
    intro s x h
    simp only [processRows, List.foldl_cons] at *
    exact ih (processRow s r) x (mem_knownNames_processRow r s x h)

theorem key_mem_knownNames_processRow (row : Row) :
    ∀ (s : SyncState) (kv : String × RowValue), kv ∈ row →
      kv.1 ∈ knownNames (processRow s row) := by
  induction row with
  | nil => intro s kv h; cases h
  | cons a t ih =>
    intro s kv h
    simp only [processRow, List.foldl_cons] at *
    rcases List.mem_cons.mp h with rfl | hmem
    · exact mem_knownNames_processRow t (processField s kv) kv.1
        (self_mem_knownNames_processField s kv)
    · exact ih (processField s a) kv hmem

theorem key_mem_knownNames_processRows (rows : List Row) :
    ∀ (s : SyncState) (row : Row) (kv : String × RowValue), row ∈ rows → kv ∈ row →
      kv.1 ∈ knownNames (processRows s rows) := by
  induction rows with
  | nil => intro s row kv h _; cases h
  | cons r rs ih =>
    intro s row kv hrow hkv
    simp only [processRows, List.foldl_cons] at *
    rcases List.mem_cons.mp hrow with rfl | hmem
    · exact mem_knownNames_processRows rs (processRow s row) kv.1
        (key_mem_knownNames_processRow row s kv hkv)
    · exact ih (processRow s r) row kv hmem hkv

theorem mem_warnings_processField (s : SyncState) (kv : String × RowValue) (x : String)
    (h : x ∈ s.warnings) : x ∈ (processField s kv).warnings := by
  unfold processField
  split
  next t hl =>
    split
    · exact List.mem_append_left _ h
    · exact h
  next hl => exact h

theorem warning_emitted_processField (s : SyncState) (kv : String × RowValue) (t : String)
    (hl : List.lookup kv.1 s.known = some t) (hne : t ≠ valueTypeString kv.2) :
    kv.1 ∈ (processField s kv).warnings := by
  unfold processField
  split
  next t' heq =>
    rw [hl] at heq
    obtain rfl : t' = t := by cases heq; rfl
    rw [if_pos hne]
    exact List.mem_append_right _ (by simp)
  next heq =>
    rw [hl] at heq
    cases heq

theorem mem_warnings_processRow (row : Row) :
    ∀ (s : SyncState) (x : String), x ∈ s.warnings → x ∈ (processRow s row).warnings := by
  induction row with
  | nil => intro s x h; exact h
  | cons a t ih =>
    intro s x h
    simp only [processRow, List.foldl_cons] at *
    exact ih (processField s a) x (mem_warnings_processField s a x h)

theorem mem_warnings_processRows (rows : List Row) :
    ∀ (s : SyncState) (x : String), x ∈ s.warnings → x ∈ (processRows s rows).warnings := by
  induction rows with
  | nil => intro s x h; exact h
  | cons r rs ih =>
    intro s x h
    simp only [processRows, List.foldl_cons] at *
    exact ih (processRow s r) x (mem_warnings_processRow r s x h)

theorem warning_in_processRow (meta : TableMeta) (kn : List (String × String))
    (src : String × RowValue → Prop) (row : Row) :
    ∀ (s : SyncState) (kv : String × RowValue) (t : String), SyncInv meta kn src s →
      (∀ a ∈ row, src a) → kv ∈ row → List.lookup kv.1 kn = some t →
      t ≠ valueTypeString kv.2 → kv.1 ∈ (processRow s row).warnings := by
  induction row with
  | nil => intro s kv t _ _ h _ _; cases h
  | cons a as ih =>
    intro s kv t hinv hsrc hkv hl hne
    simp only [processRow, List.foldl_cons] at *
    rcases List.mem_cons.mp hkv with rfl | hmem
    · obtain ⟨staged, kpairs, h1, h2, h3, h4, h5, h6⟩ := hinv
      have hlk : List.lookup kv.1 s.known = some t := by
        rw [h3]; exact lookup_append_left _ _ _ _ hl
      exact mem_warnings_processRow as (processField s kv) kv.1
        (warning_emitted_processField s kv t hlk hne)
    · exact ih (processField s a) kv t
        (processField_inv meta kn src s a (hsrc a (List.mem_cons_self _ _)) hinv)
        (fun x hx => hsrc x (List.mem_cons_of_mem _ hx)) hmem hl hne

theorem warning_in_processRows (meta : TableMeta) (kn : List (String × String))
    (src : String × RowValue → Prop) (rows : List Row) :
    ∀ (s : SyncState) (row : Row) (kv : String × RowValue) (t : String),
      SyncInv meta kn src s → (∀ r ∈ rows, ∀ a ∈ r, src a) → row ∈ rows → kv ∈ row →
      List.lookup kv.1 kn = some t → t ≠ valueTypeString kv.2 →
      kv.1 ∈ (processRows s rows).warnings := by
  induction rows with
  | nil => intro s row kv t _ _ h _ _ _; cases h
  | cons r rs ih =>
    intro s row kv t hinv hsrc hrow hkv hl hne
    simp only [processRows, List.foldl_cons] at *
    rcases List.mem_cons.mp hrow with rfl | hmem
    · exact mem_warnings_processRows rs (processRow s row) kv.1
        (warning_in_processRow meta kn src row s kv t hinv
          (hsrc row (List.mem_cons_self _ _)) hkv hl hne)
    · exact ih (processRow s r) row kv t
        (processRow_inv meta kn src r s (hsrc r (List.mem_cons_self _ _)) hinv)
        (fun x hx => hsrc x (List.mem_cons_of_mem _ hx)) hmem hkv hl hne

theorem updateSchema_err_eq (e : String) (rows : List Row) (updR : Except String Unit) :
    updateSchema (.error e) rows updR = ⟨[Op.fetchMeta], [], .error ("table metadata: " ++ e)⟩ :=
  rfl

theorem updateSchema_badfield_eq (meta : TableMeta) (rows : List Row)
    (updR : Except String Unit) (e : String) (h : buildKnown meta.schema = .error e) :
    updateSchema (.ok meta) rows updR = ⟨[Op.fetchMeta], [], .error e⟩ := by
  simp only [updateSchema]
  rw [h]

theorem updateSchema_ok_eq (meta : TableMeta) (rows : List Row) (updR : Except String Unit)
    (kn : List (String × String)) (hkn : buildKnown meta.schema = .ok kn) :
    updateSchema (.ok meta) rows updR =
      (if (processRows ⟨kn, meta.schema, [], []⟩ rows).newFields = [] then
        ⟨[Op.fetchMeta], (processRows ⟨kn, meta.schema, [], []⟩ rows).warnings, .ok ()⟩
      else
        match updR with
        | .ok _ =>
          ⟨[Op.fetchMeta,
              Op.alter ⟨(processRows ⟨kn, meta.schema, [], []⟩ rows).schema, meta.etag⟩],
            (processRows ⟨kn, meta.schema, [], []⟩ rows).warnings, .ok ()⟩
        | .error e =>
          ⟨[Op.fetchMeta,
              Op.alter ⟨(processRows ⟨kn, meta.schema, [], []⟩ rows).schema, meta.etag⟩],
            (processRows ⟨kn, meta.schema, [], []⟩ rows).warnings,
            .error ("unable to update schema: " ++ e)⟩) := by
  simp only [updateSchema]
  rw [hkn]

theorem updateSchema_alter_count (metaResult : Except String TableMeta) (rows : List Row)
    (updateResult : Except String Unit) :
    (((updateSchema metaResult rows updateResult).ops.filter isAlterOp).length ≤ 1) := by
  cases metaResult with
  | error e => rw [updateSchema_err_eq]; simp [isAlterOp]
  | ok meta =>
    cases hb : buildKnown meta.schema with
    | error e => rw [updateSchema_badfield_eq _ _ _ _ hb]; simp [isAlterOp]
    | ok kn =>
      rw [updateSchema_ok_eq _ _ _ _ hb]
      repeat' split
      all_goals simp [isAlterOp]

end HelperLemmas

section Claims

/-- C9: field-name sanitization (replacing every `'.'` by `'_'`) is
idempotent — sanitizing an already-sanitized name returns it unchanged — and
`"service.name"` sanitizes to `"service_name"`. -/
theorem sanitizeFieldName_idempotent (name : String) :
    sanitizeFieldName (sanitizeFieldName name) = sanitizeFieldName name
    ∧ sanitizeFieldName "service.name" = "service_name" := by
  refine ⟨?_, rfl⟩
  unfold sanitizeFieldName
  congr 1
  show (name.data.map replDot).map replDot = name.data.map replDot
  rw [List.map_map]
  exact List.map_congr_left fun a _ => replDot_replDot a

/-- C4 (amended): an attribute value whose tag matches none of the seven
recognized kinds — the empty/unset value — is silently dropped by
`addKeyValue`: the row is returned unchanged, nothing is written and no
failure is raised. -/
theorem addKeyValue_empty_dropped (row : Row) (k : String) :
    addKeyValue row k Value.empty = row := rfl

/-- C4 counterexample: at a concrete row and an empty-tagged attribute value,
`addKeyValue` neither fails nor records the field — the row is unchanged and
the field is absent — refuting that the normalizer fails loudly on
unrecognized tags. -/
theorem addKeyValue_empty_silent_cex :
    addKeyValue [("a", RowValue.str "r")] "k" Value.empty = [("a", RowValue.str "r")]
    ∧ List.lookup "k" (addKeyValue [("a", RowValue.str "r")] "k" Value.empty) = none :=
  ⟨rfl, rfl⟩

/-- C8 (amended): when a resource-level attribute and a leaf-level attribute
sanitize to the same field name, the produced row contains the leaf-level
value — provided the leaf-level write actually happens, i.e. the last
colliding leaf attribute has a recognized (non-empty) tag (`lastWrite`
returns it); an empty-tagged leaf value writes nothing and leaves the
resource-level value in place. -/
theorem buildRow_leaf_overrides (res : List (String × Value)) (span : Span)
    (k kr : String) (vr : Value) (w : RowValue)
    (hres : (kr, vr) ∈ res) (hkr : sanitizeFieldName kr = k)
    (hleaf : lastWrite k span.attributes = some w) :
    List.lookup k (buildRow res span) = some w := by
  unfold buildRow
  rw [lookup_foldl_addKeyValue, hleaf]
  rfl

/-- C8 witness: a resource attribute `service.name = "svc"` and a leaf
attribute `service.name = "leaf"` collide at `service_name`; the row holds
the leaf value. -/
theorem buildRow_leaf_overrides_witness :
    (("service.name", Value.str "svc") ∈ [(("service.name" : String), Value.str "svc")])
    ∧ sanitizeFieldName "service.name" = "service_name"
    ∧ lastWrite "service_name" [("service.name", Value.str "leaf")] = some (RowValue.str "leaf")
    ∧ List.lookup "service_name"
        (buildRow [("service.name", Value.str "svc")] ⟨"s", [("service.name", Value.str "leaf")]⟩)
        = some (RowValue.str "leaf") :=
  ⟨List.mem_singleton.mpr rfl, rfl, rfl,
    buildRow_leaf_overrides _ _ _ _ _ _ (List.mem_singleton.mpr rfl) rfl rfl⟩

/-- C8 counterexample: resource attribute `a = "r"` and leaf attribute `a`
with the empty value collide at `a`, yet the produced row contains the
resource-level value `"r"` (the empty leaf value wrote nothing), refuting the
unconditional claim that the row contains the leaf-level value. -/
theorem buildRow_resource_survives_cex :
    List.lookup "a" (buildRow [("a", Value.str "r")] ⟨"s", [("a", Value.empty)]⟩)
      = some (RowValue.str "r") := rfl

/-- C1: with the flexible-schema flag disabled, an insert failure whose
message is classified as unknown-field ("no such field") is returned to the
caller unchanged, and the operation trace holds only the single insert — no
schema fetch, no alteration, no wait, no resubmission. -/
theorem sendRows_inflexible_terminal (rows : List Row) (msg : String)
    (metaResult : Except String TableMeta) (updateResult : Except String Unit)
    (put2 : Option String) (hmsg : noSuchFieldIn msg = true) :
    sendRows false rows (some msg) metaResult updateResult put2 = ([Op.put rows], some msg) := by
  simp [sendRows, hmsg]

/-- C1 witness: concrete unknown-field error with the flag off. -/
theorem sendRows_inflexible_terminal_witness :
    noSuchFieldIn "insert: no such field: foo" = true
    ∧ sendRows false [] (some "insert: no such field: foo")
        (.error "boom") (.ok ()) none
        = ([Op.put []], some "insert: no such field: foo") :=
  ⟨rfl, sendRows_inflexible_terminal [] _ _ _ _ rfl⟩

/-- C3 evaluation: the staged-type inference maps boolean→BOOLEAN,
float64→BIGNUMERIC, int64→NUMERIC, string→STRING and `"ts"`→TIMESTAMP as
claimed, but a bytes-valued new field is typed with the empty zero-value
`FieldType("")`, not BYTES: Go's `case byte:` matches `uint8`, never the
`pcommon.ByteSlice` actually stored in rows, so bytes values take the
`default` branch, and the alteration request carries the empty type. -/
theorem inferFieldType_eval :
    inferFieldType "b" (RowValue.bytes [104, 105]) = FieldType.empty
    ∧ inferFieldType "b" (RowValue.bytes [104, 105]) ≠ FieldType.bytes
    ∧ inferFieldType "flag" (RowValue.bool true) = FieldType.boolean
    ∧ inferFieldType "d" (RowValue.double 1) = FieldType.bignumeric
    ∧ inferFieldType "n" (RowValue.int 7) = FieldType.numeric
    ∧ inferFieldType "s" (RowValue.str "v") = FieldType.string
    ∧ inferFieldType "ts" (RowValue.bytes [104]) = FieldType.timestamp
    ∧ (updateSchema (.ok ⟨[], "e"⟩) [[("b", RowValue.bytes [104])]] (.ok ())).ops
        = [Op.fetchMeta, Op.alter ⟨[⟨"b", FieldType.empty⟩], "e"⟩] := by
  refine ⟨rfl, ?_, rfl, rfl, rfl, rfl, rfl, rfl⟩
  decide

/-- C7 (amended): `buildRows` produces exactly one row per leaf span, in
traversal order (resource-group order, then scope-group order, then leaf
order); a batch with zero leaf spans yields the empty row sequence; and the
`i`-th row's `"name"` field equals the `i`-th leaf's span name provided no
resource- or leaf-level attribute key sanitizes to `"name"` (such an
attribute overwrites the record-name entry, which is written first). -/
theorem buildRows_rows_per_leaf (td : Traces) :
    (buildRows td).length = (tdLeaves td).length
    ∧ (tdLeaves td = [] → buildRows td = [])
    ∧ ∀ i, i < (tdLeaves td).length →
        leafNoNameCollision ((tdLeaves td).getD i dfltLeaf) →
        List.lookup "name" ((buildRows td).getD i [])
          = some (RowValue.str (((tdLeaves td).getD i dfltLeaf).2.name)) := by
  have hmap := buildRows_eq_leaves_map td
  refine ⟨by rw [hmap]; simp, ?_, ?_⟩
  · intro h
    rw [hmap, h]
    rfl
  · intro i hi hcol
    rw [hmap, getD_map (fun p => buildRow p.1 p.2) (tdLeaves td) dfltLeaf [] i hi]
    exact lookup_buildRow_name _ _ hcol

/-- C7 witness: the single-span batch yields one row whose `"name"` field is
the span's name. -/
theorem buildRows_rows_per_leaf_witness :
    0 < (tdLeaves tdOneSpan).length
    ∧ leafNoNameCollision ((tdLeaves tdOneSpan).getD 0 dfltLeaf)
    ∧ List.lookup "name" ((buildRows tdOneSpan).getD 0 []) = some (RowValue.str "span1") := by
  have e1 : ((tdLeaves tdOneSpan).getD 0 dfltLeaf).1 = [("service.name", Value.str "svc1")] := rfl
  have e2 : ((tdLeaves tdOneSpan).getD 0 dfltLeaf).2.attributes
      = [("str_key", Value.str "value1")] := rfl
  have hcol : leafNoNameCollision ((tdLeaves tdOneSpan).getD 0 dfltLeaf) := by
    intro kv hkv
    rcases hkv with h | h
    · rw [e1, List.mem_singleton] at h
      subst h
      decide
    · rw [e2, List.mem_singleton] at h
      subst h
      decide
  exact ⟨by decide, hcol, (buildRows_rows_per_leaf tdOneSpan).2.2 0 (by decide) hcol⟩

/-- C7 counterexample: a span named `"span1"` carrying an attribute keyed
`"name"` produces a row whose record-name field is the attribute's value
`"x"`, not the leaf's name `"span1"` — refuting the unconditional claim that
each row's record-name field equals its leaf's name. -/
theorem buildRows_name_overwritten_cex :
    buildRows tdNameClash = [[("name", RowValue.str "x")]]
    ∧ ((tdLeaves tdNameClash).map fun p => p.2.name) = ["span1"]
    ∧ ("x" : String) ≠ "span1" :=
  ⟨rfl, rfl, by decide⟩

/-- C5: given a fetched schema whose field types are all representable
(`buildKnown` succeeds, the spec's Remote Schema invariant), `updateSchema`
issues an alteration request iff some field name in the batch is absent from
the fetched schema; at most one alteration is issued; any issued request is
guarded by the fetched ETag and carries the full schema — the fetched fields
followed by the staged new fields, staged at most once per name and all
absent from the fetched schema; and when no batch field is new the call
returns success with no alteration. -/
theorem updateSchema_alter_iff (meta : TableMeta) (rows : List Row)
    (updR : Except String Unit) (kn : List (String × String))
    (hkn : buildKnown meta.schema = .ok kn) :
    ((∃ req, Op.alter req ∈ (updateSchema (.ok meta) rows updR).ops)
        ↔ ∃ row ∈ rows, ∃ kv ∈ row, kv.1 ∉ meta.schema.map Field.name)
    ∧ (((updateSchema (.ok meta) rows updR).ops.filter isAlterOp).length ≤ 1)
    ∧ (∀ req, Op.alter req ∈ (updateSchema (.ok meta) rows updR).ops →
        req.etag = meta.etag
        ∧ ∃ staged, req.schema = meta.schema ++ staged ∧ staged ≠ []
            ∧ (staged.map Field.name).Nodup
            ∧ ∀ f ∈ staged, f.name ∉ meta.schema.map Field.name)
    ∧ ((¬ ∃ row ∈ rows, ∃ kv ∈ row, kv.1 ∉ meta.schema.map Field.name) →
        (updateSchema (.ok meta) rows updR).result = .ok ()) := by
  have hknames : kn.map Prod.fst = meta.schema.map Field.name := buildKnown_fst _ _ hkn
  have hinv := processRows_inv meta kn (fun kv => ∃ r ∈ rows, kv ∈ r) rows
    ⟨kn, meta.schema, [], []⟩ (fun r hr a ha => ⟨r, hr, ha⟩) (SyncInv_init meta kn _)
  obtain ⟨staged, kpairs, h1, h2, h3, h4, h5, h6⟩ := hinv
  by_cases hnf : (processRows ⟨kn, meta.schema, [], []⟩ rows).newFields = []
  · have hops : (updateSchema (.ok meta) rows updR).ops = [Op.fetchMeta] := by
      rw [updateSchema_ok_eq meta rows updR kn hkn, if_pos hnf]
    have hres : (updateSchema (.ok meta) rows updR).result = .ok () := by
      rw [updateSchema_ok_eq meta rows updR kn hkn, if_pos hnf]
    have hstaged : staged = [] := by
      rw [hnf] at h2
      exact List.map_eq_nil_iff.mp h2.symm
    refine ⟨⟨?_, ?_⟩, ?_, ?_, fun _ => hres⟩
    · rintro ⟨req, hreq⟩
      rw [hops] at hreq
      simp at hreq
    · rintro ⟨row, hrow, kv, hkv, hnotin⟩
      exfalso
      have hkmem := key_mem_knownNames_processRows rows ⟨kn, meta.schema, [], []⟩ row kv hrow hkv
      unfold knownNames at hkmem
      rw [h3, List.map_append, h4, hstaged] at hkmem
      simp only [List.map_nil, List.append_nil] at hkmem
      rw [hknames] at hkmem
      exact hnotin hkmem
    · rw [hops]
      simp [isAlterOp]
    · intro req hreq
      rw [hops] at hreq
      simp at hreq
  · have hops : (updateSchema (.ok meta) rows updR).ops
        = [Op.fetchMeta,
            Op.alter ⟨(processRows ⟨kn, meta.schema, [], []⟩ rows).schema, meta.etag⟩] := by
      rw [updateSchema_ok_eq meta rows updR kn hkn, if_neg hnf]
      cases updR <;> rfl
    have hstaged_ne : staged ≠ [] := by
      intro hc
      apply hnf
      rw [h2, hc]
      rfl
    have hex : ∃ row ∈ rows, ∃ kv ∈ row, kv.1 ∉ meta.schema.map Field.name := by
      obtain ⟨f, hf⟩ := List.exists_mem_of_ne_nil staged hstaged_ne
      obtain ⟨hfn, kv, hsrckv, hkv1, hft⟩ := h6 f hf
      obtain ⟨row, hrow, hkvrow⟩ := hsrckv
      refine ⟨row, hrow, kv, hkvrow, ?_⟩
      rw [hkv1, ← hknames]
      exact hfn
    refine ⟨⟨fun _ => hex,
      fun _ => ⟨⟨(processRows ⟨kn, meta.schema, [], []⟩ rows).schema, meta.etag⟩,
        by rw [hops]; simp⟩⟩, ?_, ?_, ?_⟩
    · rw [hops]
      simp [isAlterOp]
    · intro req hreq
      rw [hops] at hreq
      simp at hreq
      subst hreq
      refine ⟨rfl, staged, h1, hstaged_ne, h5, ?_⟩
      intro f hf
      rw [← hknames]
      exact (h6 f hf).1
    · intro hno
      exact absurd hex hno

/-- C5 witness: a batch carrying the known field `a` and the new field `b`
against a one-field schema. -/
theorem updateSchema_alter_iff_witness :
    buildKnown metaOneField.schema = .ok [("a", "string")]
    ∧ ((∃ req, Op.alter req ∈ (updateSchema (.ok metaOneField) rowsNewField (.ok ())).ops)
        ↔ ∃ row ∈ rowsNewField, ∃ kv ∈ row, kv.1 ∉ metaOneField.schema.map Field.name)
    ∧ (((updateSchema (.ok metaOneField) rowsNewField (.ok ())).ops.filter isAlterOp).length
        ≤ 1) :=
  ⟨rfl, (updateSchema_alter_iff metaOneField rowsNewField (.ok ()) [("a", "string")] rfl).1,
    (updateSchema_alter_iff metaOneField rowsNewField (.ok ()) [("a", "string")] rfl).2.1⟩

/-- C6: schema evolution is append-only — every issued alteration request
starts with the fetched schema unchanged (so no pre-existing field is
removed or retyped); with a representable fetched schema the call returns
success whenever the store accepts the update, regardless of observed type
mismatches; and a mismatch between a known field's recorded type and an
observed value's Go type emits a warning naming the field while processing
continues. -/
theorem updateSchema_append_only (meta : TableMeta) (rows : List Row)
    (updR : Except String Unit) (kn : List (String × String))
    (hkn : buildKnown meta.schema = .ok kn) :
    (∀ req, Op.alter req ∈ (updateSchema (.ok meta) rows updR).ops → meta.schema <+: req.schema)
    ∧ (updR = .ok () → (updateSchema (.ok meta) rows updR).result = .ok ())
    ∧ (∀ row ∈ rows, ∀ kv ∈ row, ∀ t, List.lookup kv.1 kn = some t →
        t ≠ valueTypeString kv.2 → kv.1 ∈ (updateSchema (.ok meta) rows updR).warnings) := by
  have hinv := processRows_inv meta kn (fun kv => ∃ r ∈ rows, kv ∈ r) rows
    ⟨kn, meta.schema, [], []⟩ (fun r hr a ha => ⟨r, hr, ha⟩) (SyncInv_init meta kn _)
  obtain ⟨staged, kpairs, h1, h2, h3, h4, h5, h6⟩ := hinv
  have hwarn : (updateSchema (.ok meta) rows updR).warnings
      = (processRows ⟨kn, meta.schema, [], []⟩ rows).warnings := by
    rw [updateSchema_ok_eq meta rows updR kn hkn]
    by_cases hnf : (processRows ⟨kn, meta.schema, [], []⟩ rows).newFields = []
    · rw [if_pos hnf]
    · rw [if_neg hnf]
      cases updR <;> rfl
  refine ⟨?_, ?_, ?_⟩
  · intro req hreq
    by_cases hnf : (processRows ⟨kn, meta.schema, [], []⟩ rows).newFields = []
    · rw [updateSchema_ok_eq meta rows updR kn hkn, if_pos hnf] at hreq
      simp at hreq
    · have hops : (updateSchema (.ok meta) rows updR).ops
          = [Op.fetchMeta,
              Op.alter ⟨(processRows ⟨kn, meta.schema, [], []⟩ rows).schema, meta.etag⟩] := by
        rw [updateSchema_ok_eq meta rows updR kn hkn, if_neg hnf]
        cases updR <;> rfl
      rw [hops] at hreq
      simp at hreq
      subst hreq
      exact ⟨staged, h1.symm⟩
  · intro hu
    subst hu
    rw [updateSchema_ok_eq meta rows (.ok ()) kn hkn]
    by_cases hnf : (processRows ⟨kn, meta.schema, [], []⟩ rows).newFields = []
    · rw [if_pos hnf]
    · rw [if_neg hnf]
  · intro row hrow kv hkv t hlt hne
    rw [hwarn]
    exact warning_in_processRows meta kn (fun kv => ∃ r ∈ rows, kv ∈ r) rows
      ⟨kn, meta.schema, [], []⟩ row kv t (SyncInv_init meta kn _)
      (fun r hr a ha => ⟨r, hr, ha⟩) hrow hkv hlt hne

/-- C6 witness: a NUMERIC field `a` observed with a string value — the
mismatch is warned about, the call still succeeds, and no field is
removed. -/
theorem updateSchema_append_only_witness :
    buildKnown metaMismatch.schema = .ok [("a", "int64")]
    ∧ (("a", RowValue.str "x") ∈ ([("a", RowValue.str "x")] : Row))
    ∧ (([("a", RowValue.str "x")] : Row) ∈ rowsMismatch)
    ∧ List.lookup "a" [("a", "int64")] = some "int64"
    ∧ ("int64" : String) ≠ valueTypeString (RowValue.str "x")
    ∧ (updateSchema (.ok metaMismatch) rowsMismatch (.ok ())).result = .ok ()
    ∧ "a" ∈ (updateSchema (.ok metaMismatch) rowsMismatch (.ok ())).warnings := by
  refine ⟨rfl, List.mem_singleton.mpr rfl, List.mem_singleton.mpr rfl, rfl, by decide, ?_, ?_⟩
  · exact (updateSchema_append_only metaMismatch rowsMismatch (.ok ()) [("a", "int64")] rfl).2.1
      rfl
  · exact (updateSchema_append_only metaMismatch rowsMismatch (.ok ()) [("a", "int64")] rfl).2.2
      [("a", RowValue.str "x")] (List.mem_singleton.mpr rfl)
      ("a", RowValue.str "x") (List.mem_singleton.mpr rfl)
      "int64" rfl (by decide)

/-- C10: a new field whose name is not `"ts"` and whose value's inferred type
falls through to the `default` branch (bytes, map or slice values — not of Go
type bool, float64, int64, string or byte) is neither skipped nor an error:
it is staged with the zero-value empty field type, included in the alteration
request, and the call succeeds when the store accepts the update. -/
theorem updateSchema_stages_empty_type (meta : TableMeta) (rows : List Row)
    (updR : Except String Unit) (kn : List (String × String)) (key : String)
    (hkn : buildKnown meta.schema = .ok kn)
    (hnew : key ∉ meta.schema.map Field.name)
    (hocc : ∃ row ∈ rows, ∃ v : RowValue, (key, v) ∈ row)
    (hall : ∀ row ∈ rows, ∀ kv ∈ row, kv.1 = key →
      inferFieldType kv.1 kv.2 = FieldType.empty) :
    (∃ req, Op.alter req ∈ (updateSchema (.ok meta) rows updR).ops
        ∧ (⟨key, FieldType.empty⟩ : Field) ∈ req.schema)
    ∧ (updR = .ok () → (updateSchema (.ok meta) rows updR).result = .ok ()) := by
  have hknames : kn.map Prod.fst = meta.schema.map Field.name := buildKnown_fst _ _ hkn
  have hinv := processRows_inv meta kn (fun kv => ∃ r ∈ rows, kv ∈ r) rows
    ⟨kn, meta.schema, [], []⟩ (fun r hr a ha => ⟨r, hr, ha⟩) (SyncInv_init meta kn _)
  obtain ⟨staged, kpairs, h1, h2, h3, h4, h5, h6⟩ := hinv
  obtain ⟨row, hrow, v, hkvrow⟩ := hocc
  have hkmem := key_mem_knownNames_processRows rows ⟨kn, meta.schema, [], []⟩ row (key, v)
    hrow hkvrow
  unfold knownNames at hkmem
  rw [h3, List.map_append, h4] at hkmem
  have hkey_staged : key ∈ staged.map Field.name := by
    rcases List.mem_append.mp hkmem with hm | hm
    · exact absurd (hknames ▸ hm) hnew
    · exact hm
  obtain ⟨f, hf, hfname⟩ := List.mem_map.mp hkey_staged
  obtain ⟨hfkn, kv, hsrckv, hkv1, hft⟩ := h6 f hf
  obtain ⟨r2, hr2, hkv2⟩ := hsrckv
  have hempty : f.ftype = FieldType.empty := by
    rw [hft]
    exact hall r2 hr2 kv hkv2 (by rw [hkv1, hfname])
  have hfeq : f = ⟨key, FieldType.empty⟩ := by
    cases f with
    | mk n t =>
      simp only at hfname hempty
      rw [hfname, hempty]
  have hnf : (processRows ⟨kn, meta.schema, [], []⟩ rows).newFields ≠ [] := by
    rw [h2]
    intro hc
    rw [hc] at hkey_staged
    exact List.not_mem_nil _ hkey_staged
  refine ⟨⟨⟨(processRows ⟨kn, meta.schema, [], []⟩ rows).schema, meta.etag⟩, ?_, ?_⟩, ?_⟩
  · rw [updateSchema_ok_eq meta rows updR kn hkn, if_neg hnf]
    cases updR <;> simp
  · show (⟨key, FieldType.empty⟩ : Field) ∈ (processRows ⟨kn, meta.schema, [], []⟩ rows).schema
    rw [h1]
    exact List.mem_append_right _ (hfeq ▸ hf)
  · intro hu
    subst hu
    rw [updateSchema_ok_eq meta rows (.ok ()) kn hkn, if_neg hnf]

/-- C10 witness: a new bytes-valued field `b` against an empty schema is
staged with the empty field type and submitted. -/
theorem updateSchema_stages_empty_type_witness :
    (("b" : String) ∉ metaEmptySchema.schema.map Field.name)
    ∧ (∃ req, Op.alter req ∈ (updateSchema (.ok metaEmptySchema) rowsBytesField (.ok ())).ops
        ∧ (⟨"b", FieldType.empty⟩ : Field) ∈ req.schema)
    ∧ (updateSchema (.ok metaEmptySchema) rowsBytesField (.ok ())).result = .ok () := by
  have h := updateSchema_stages_empty_type metaEmptySchema rowsBytesField (.ok ()) [] "b" rfl
    (by simp [metaEmptySchema])
    ⟨[("b", RowValue.bytes [104])], List.mem_singleton.mpr rfl,
      RowValue.bytes [104], List.mem_singleton.mpr rfl⟩
    (by decide)
  exact ⟨by simp [metaEmptySchema], h.1, h.2 rfl⟩

/-- C2 (amended): with flexible-schema mode on, a first insert failing with
an unknown-field error and a successful synchronization, the call performs
the synchronization (schema fetch plus at most one alteration request), then
the fixed 60-second settling wait, then exactly one resubmission of the
identical batch, in that order, and returns the resubmission's outcome
as-is — a second unknown-field error is not re-driven through another
synchronization cycle. -/
theorem sendRows_flexible_retry (rows : List Row) (msg : String)
    (metaR : Except String TableMeta) (updR : Except String Unit) (put2 : Option String)
    (hmsg : noSuchFieldIn msg = true)
    (hsync : (updateSchema metaR rows updR).result = .ok ()) :
    sendRows true rows (some msg) metaR updR put2
      = (Op.put rows :: (updateSchema metaR rows updR).ops ++ [Op.sleep 60, Op.put rows], put2)
    ∧ (((sendRows true rows (some msg) metaR updR put2).1.filter isAlterOp).length ≤ 1) := by
  have h1 : sendRows true rows (some msg) metaR updR put2
      = (Op.put rows :: (updateSchema metaR rows updR).ops
          ++ [Op.sleep 60, Op.put rows], put2) := by
    simp only [sendRows, hmsg, if_true]
    rw [hsync]
  refine ⟨h1, ?_⟩
  rw [h1]
  simp only [List.filter_cons, List.filter_append, isAlterOp]
  simpa [isAlterOp] using updateSchema_alter_count metaR rows updR

/-- C2 witness: a staged new field — one alteration, the wait, one
resubmission, in order. -/
theorem sendRows_flexible_retry_witness :
    noSuchFieldIn "no such field" = true
    ∧ (updateSchema (.ok metaEmptySchema) rowsOneNew (.ok ())).result = .ok ()
    ∧ sendRows true rowsOneNew (some "no such field") (.ok metaEmptySchema) (.ok ()) none
        = (Op.put rowsOneNew :: (updateSchema (.ok metaEmptySchema) rowsOneNew (.ok ())).ops
            ++ [Op.sleep 60, Op.put rowsOneNew], none) :=
  ⟨rfl, rfl,
    (sendRows_flexible_retry rowsOneNew "no such field" (.ok metaEmptySchema) (.ok ()) none
      rfl rfl).1⟩

/-- C2 counterexample: when the fetched schema already contains every batch
field (synchronization succeeds as a no-op), the retry path performs ZERO
alteration requests — not exactly one as claimed — while still waiting and
resubmitting once. -/
theorem sendRows_noop_sync_cex :
    ((sendRows true rowsNoop (some "no such field") (.ok metaNoop) (.ok ())
        (some "no such field")).1.filter isAlterOp).length = 0
    ∧ (sendRows true rowsNoop (some "no such field") (.ok metaNoop) (.ok ())
        (some "no such field")).1
      = [Op.put rowsNoop, Op.fetchMeta, Op.sleep 60, Op.put rowsNoop]
    ∧ (updateSchema (.ok metaNoop) rowsNoop (.ok ())).result = .ok () :=
  ⟨rfl, rfl, rfl⟩

end Claims

end Otelex
